import Mathlib

/-!
Shallow embedding of the KVOpt in-memory key-value cache.

The embedding follows `src/main.rs` and `src/buffer.rs`:
* keys are 63-byte sequences, raw values are 64-byte sequences; bytes are
  modelled as `Nat` (the `u8` values of the source, always < 256 on real inputs);
* the two hash maps (`vals : HashMap<[u8;63],[u8;64]>` and
  `entries : DashMap<[u8;63],CacheEntry>`) are modelled as association
  lists with first-match lookup, overwrite-on-insert and remove-all-copies
  on removal, which matches hash-map set semantics;
* `chrono::DateTime<Utc>` timestamps are modelled as `Int` seconds;
  `Utc::now()` becomes an explicit `now : Int` parameter;
* stdout writes become the returned `output` byte list; the asynchronous
  thread-pool scheduling of a sweep in `handle_in` becomes the returned
  `sweep_scheduled` flag (the sweep itself is `invalidate_cache` below);
* file I/O in `clean_up` is modelled by passing the outcome of
  `File::write` (the accepted byte count) as an explicit parameter.
-/

namespace KVOpt

set_option maxRecDepth 16384

/-- Keys are 63-byte sequences, as lists of byte values. -/
abbrev Key := List Nat

/-- Raw values are 64-byte wire/disk sequences, as lists of byte values. -/
abbrev RawValue := List Nat

/-- First-match association-list lookup (hash-map `get`). -/
def lookupA {α : Type} (k : Key) : List (Key × α) → Option α
  | [] => none
  | p :: rest => if p.1 = k then some p.2 else lookupA k rest

/-- Hash-map `remove`: drop every pair with the given key. -/
def removeA {α : Type} (k : Key) (l : List (Key × α)) : List (Key × α) :=
  l.filter (fun p => p.1 ≠ k)

/-- Hash-map `insert`: overwrite any existing pair with the given key. -/
def insertA {α : Type} (k : Key) (v : α) (l : List (Key × α)) : List (Key × α) :=
  (k, v) :: removeA k l

/-- Struct `CacheEntry` from `src/main.rs`: decoded projection of a raw value. -/
structure CacheEntry where
  value : List Nat
  created_at : Int
  expires_at : Option Int
deriving DecidableEq, Repr

/-- In-memory state of the `Cache` struct (`src/main.rs`), restricted to the
fields the dispatcher, sweep and persistence code read or write. -/
structure Cache where
  vals : List (Key × RawValue)
  entries : List (Key × CacheEntry)
  save_flag : Bool
  ops_since_invalidation : Nat
  invalidation_threshold : Nat
deriving DecidableEq, Repr

/-- Constant `DEFAULT_INVALIDATION_THRESHOLD` from `src/main.rs`. -/
def DEFAULT_INVALIDATION_THRESHOLD : Nat := 100

/-- Constructor `Cache::new`: empty maps, clear save flag, zero op counter, default
invalidation threshold. -/
def Cache.new : Cache :=
  { vals := []
    entries := []
    save_flag := false
    ops_since_invalidation := 0
    invalidation_threshold := DEFAULT_INVALIDATION_THRESHOLD }

/-- The all-zero key test `key.iter().all(|&b| b == 0)`. -/
def zeroKey (k : Key) : Bool := k.all (fun b => b == 0)

/-- Decoder `u16::from_be_bytes([value[62], value[63]])`: the expiration offset. -/
def decode_offset (v : RawValue) : Nat :=
  256 * v.getD 62 0 + v.getD 63 0

/-- Big-endian value of a byte list (`i64::from_be_bytes` on a buffer whose
leading two bytes are zero and whose tail is `value[56..62]`). -/
def be_bytes (l : List Nat) : Nat :=
  l.foldl (fun a b => 256 * a + b) 0

/-- The 48-bit big-endian creation-timestamp field `value[56..62]`. -/
def decode_timestamp (v : RawValue) : Int :=
  be_bytes ((v.drop 56).take 6)

/-- Lower bound of the representable second range of `chrono`
(`DateTime::from_timestamp` returns `None` outside it). -/
def CHRONO_MIN_TS : Int := -8334601228800

/-- Upper bound of the representable second range of `chrono`. -/
def CHRONO_MAX_TS : Int := 8210298412799

/-- Conversion `DateTime::<Utc>::from_timestamp(ts, 0).unwrap_or_else(|| Utc::now())`:
out-of-range timestamps fall back to the current time. -/
def from_timestamp_or_now (ts now : Int) : Int :=
  if CHRONO_MIN_TS ≤ ts ∧ ts ≤ CHRONO_MAX_TS then ts else now

/-- Result of one `handle_in` call: the new cache state, the bytes written
to stdout, and whether an asynchronous invalidation sweep was scheduled. -/
structure HandleResult where
  cache : Cache
  output : List Nat
  sweep_scheduled : Bool
deriving DecidableEq, Repr

/-- The counter step at the top of `handle_in`:
`fetch_add(1)` returns the previous value; when that previous value has
reached the threshold a sweep is scheduled and the counter is stored as 0,
otherwise the counter keeps its incremented value. -/
def tickCounter (c : Cache) : Cache × Bool :=
  if c.invalidation_threshold ≤ c.ops_since_invalidation then
    ({ c with ops_since_invalidation := 0 }, true)
  else
    ({ c with ops_since_invalidation := c.ops_since_invalidation + 1 }, false)

/-- Byte values of the opcode and reply characters:
`G` = 71, `H` = 72, `I` = 73, `R` = 82, `E` = 69, newline = 10. -/
def NEWLINE : Nat := 10

/-- Dispatcher `handle_in` from `src/buffer.rs`, for one 128-byte frame.
`input[0]` is the opcode, `input[1..64]` the key, `input[64..128]` the raw
value.  The empty-key rejection applies to `I` and `G` only; `G` emits the
stored 64-byte raw value (not just its payload) followed by a newline;
`I` stamps `created_at = now` in the entry map but stores the raw bytes of the caller verbatim in the raw-value map; `R` removes from both maps and always
acknowledges; `H` runs the save path (modelled by its in-memory effect of
clearing the save flag on success); unknown opcodes do nothing. -/
def handle_in (c : Cache) (input : List Nat) (now : Int) : HandleResult :=
  let t := tickCounter c
  let c1 := t.1
  let command := input.getD 0 0
  let key := (input.drop 1).take 63
  if zeroKey key && (command == 73 || command == 71) then
    ⟨c1, [69, NEWLINE], t.2⟩
  else if command == 71 then
    match lookupA key c1.vals with
    | some out => ⟨c1, out ++ [NEWLINE], t.2⟩
    | none => ⟨c1, [71, NEWLINE], t.2⟩
  else if command == 82 then
    ⟨{ c1 with
        entries := removeA key c1.entries
        vals := removeA key c1.vals
        save_flag := true }, [82, NEWLINE], t.2⟩
  else if command == 73 then
    let value := (input.drop 64).take 64
    let expire_time_seconds := decode_offset value
    let expires_at : Option Int :=
      if 0 < expire_time_seconds then some (now + expire_time_seconds) else none
    let entry : CacheEntry := ⟨value.take 56, now, expires_at⟩
    ⟨{ c1 with
        entries := insertA key entry c1.entries
        vals := insertA key value c1.vals
        save_flag := true }, [73, NEWLINE], t.2⟩
  else if command == 72 then
    ⟨{ c1 with save_flag := false }, [], t.2⟩
  else
    ⟨c1, [], t.2⟩

/-- The expiry test of the sweep in `src/main.rs::invalidate_cache`:
a `CacheEntry` is expired when `expires_at` is set and `expires_at <= now`. -/
def expiredAt (e : CacheEntry) (now : Int) : Bool :=
  match e.expires_at with
  | some t => t ≤ now
  | none => false

/-- The vector `keys_to_remove` collected by the sweep. -/
def keys_to_remove (c : Cache) (now : Int) : List Key :=
  (c.entries.filter (fun p => expiredAt p.2 now)).map Prod.fst

/-- Removing a list of keys one by one (the removal loop of the sweep). -/
def removeAll {α : Type} (ks : List Key) (l : List (Key × α)) : List (Key × α) :=
  ks.foldl (fun acc k => removeA k acc) l

/-- The sweep body of `src/main.rs::invalidate_cache`: collect every key
whose entry is expired at `now`, then remove those keys from both maps. -/
def invalidate_cache (c : Cache) (now : Int) : Cache :=
  let ks := keys_to_remove c now
  { c with entries := removeAll ks c.entries, vals := removeAll ks c.vals }

/-- The expiry test used by the persistence save and load paths, which work
from the raw bytes: an entry is skipped when its offset is nonzero and
`from_timestamp(ts).unwrap_or(now) + offset <= now`. -/
def expiredRaw (v : RawValue) (now : Int) : Bool :=
  let off := decode_offset v
  if 0 < off then
    let created := from_timestamp_or_now (decode_timestamp v) now
    decide (created + (off : Int) ≤ now)
  else
    false

/-- The record buffer built by `src/main.rs::clean_up`: for every pair in
the raw-value map, skip all-zero keys and already-expired entries, and
concatenate `key ++ value` (127 bytes per surviving record). -/
def saveBuffer (c : Cache) (now : Int) : List Nat :=
  ((c.vals.filter (fun p => !zeroKey p.1 && !expiredRaw p.2 now)).map
    (fun p => p.1 ++ p.2)).flatten

/-- Result of a completed save: the bytes on disk and the new cache state. -/
structure SaveResult where
  file : List Nat
  cache : Cache
deriving DecidableEq, Repr

/-- Save path `src/main.rs::clean_up`.  Argument `create_ok` models whether `File::create`
succeeds; `bytes_written` models the count returned by the single
`file.write(&buffer)` call (a short write leaves only a prefix on disk).
The source ignores that count and clears the save flag whenever create,
write and flush all return `Ok`. -/
def clean_up (c : Cache) (now : Int) (create_ok : Bool) (bytes_written : Nat) :
    Option SaveResult :=
  if create_ok then
    let buffer := saveBuffer c now
    some ⟨buffer.take bytes_written, { c with save_flag := false }⟩
  else
    none

/-- Chunking `chunks_exact(127)`: full 127-byte chunks, trailing partial discarded. -/
def chunksExact (n : Nat) (l : List Nat) : List (List Nat) :=
  if h : n = 0 ∨ l.length < n then []
  else l.take n :: chunksExact n (l.drop n)
termination_by l.length
decreasing_by
  simp only [not_or, not_lt] at h
  have hn : 0 < n := Nat.pos_of_ne_zero h.1
  simpa using Nat.sub_lt (Nat.lt_of_lt_of_le hn h.2) hn

/-- The `CacheEntry` built from a raw value by the load path: `created_at`
decoded from the raw bytes (falling back to `now` when out of the range of `chrono`), `expires_at = created_at + offset` when the offset is nonzero. -/
def entryOf (now : Int) (v : RawValue) : CacheEntry :=
  let created_at := from_timestamp_or_now (decode_timestamp v) now
  ⟨v.take 56, created_at,
    if 0 < decode_offset v then some (created_at + (decode_offset v : Int)) else none⟩

/-- Decoding of one 127-byte record in `src/main.rs::load`: split into key
and value, skip all-zero keys, decode the metadata tail, and skip records
already expired at load time.  Returns the key, the raw value and the
`CacheEntry` to insert. -/
def loadRecord (now : Int) (chunk : List Nat) : Option (Key × RawValue × CacheEntry) :=
  let key := chunk.take 63
  let value := chunk.drop 63
  if zeroKey key then none
  else
    match (entryOf now value).expires_at with
    | some t => if t ≤ now then none else some (key, value, entryOf now value)
    | none => some (key, value, entryOf now value)

/-- The map-building fold of `src/main.rs::load`: fresh maps, one insert
into both per surviving record. -/
def loadFold (now : Int) (recs : List (List Nat))
    (acc : List (Key × RawValue) × List (Key × CacheEntry)) :
    List (Key × RawValue) × List (Key × CacheEntry) :=
  recs.foldl
    (fun maps chunk =>
      match loadRecord now chunk with
      | none => maps
      | some (k, v, e) => (insertA k v maps.1, insertA k e maps.2))
    acc

/-- Load path `src/main.rs::load`: chunk the file bytes into exact 127-byte records,
rebuild both maps from the surviving records, and replace the maps of the cache
wholesale (the subsequent asynchronous sweep is `invalidate_cache`). -/
def load (bytes : List Nat) (now : Int) (c : Cache) : Cache :=
  let recs := chunksExact 127 bytes
  let maps := loadFold now recs ([], [])
  { c with vals := maps.1, entries := maps.2 }

/-- Alignment of the two maps, as the store invariant of the spec *intends* it,
weakened to what `handle_in` actually maintains: the same keys are present
in both maps, the payload of the entry is the first 56 bytes of the raw
value, and the expiry of the entry is `created_at + offset` for the raw
offset field (nonzero), or absent (offset zero).  The `created_at` of the
entry is *not* related to the raw timestamp field here. -/
def MapsInv (vs : List (Key × RawValue)) (es : List (Key × CacheEntry)) : Prop :=
  (∀ k, (lookupA k vs).isSome = (lookupA k es).isSome)
  ∧ (∀ k v e, lookupA k vs = some v → lookupA k es = some e →
      e.value = v.take 56 ∧
      e.expires_at =
        (if 0 < decode_offset v then some (e.created_at + (decode_offset v : Int))
         else none))

/-- Predicate `MapsInv` on the two maps of the cache. -/
def StoreInv (c : Cache) : Prop := MapsInv c.vals c.entries

/-! ### Concrete fixtures used by witnesses and counterexamples -/

/-- A 63-byte key of `0x01` bytes (the `K1` of Scenario A). -/
def key1 : Key := List.replicate 63 1

/-- The all-zero 63-byte key. -/
def key0 : Key := List.replicate 63 0

/-- A 56-byte payload of `0x02` bytes. -/
def payload2 : List Nat := List.replicate 56 2

/-- A zeroed 6-byte creation-timestamp field. -/
def ts0 : List Nat := [0, 0, 0, 0, 0, 0]

/-- A 2-byte expiration offset of 100 seconds. -/
def off100 : List Nat := [0, 100]

/-- A raw value: payload `0x02`×56, timestamp field 0, offset 100. -/
def rawv0 : RawValue := payload2 ++ ts0 ++ off100

/-- Like `rawv0` with timestamp field 1 instead of 0. -/
def rawv1 : RawValue := payload2 ++ [0, 0, 0, 0, 0, 1] ++ off100

/-- A zeroed 64-byte value field. -/
def zeros64 : RawValue := List.replicate 64 0

/-- Build a 128-byte frame from opcode, key and value field. -/
def frameOf (cmd : Nat) (k : Key) (v : RawValue) : List Nat := cmd :: (k ++ v)

/-- A cache holding `key1 ↦ rawv0` with the entry produced by an insert at
time 1000 (so `expires_at = 1100`). -/
def cacheK1 : Cache :=
  { Cache.new with
      vals := [(key1, rawv0)]
      entries := [(key1, ⟨payload2, 1000, some 1100⟩)] }

/-! ### Association-list lemmas -/

theorem lookupA_nil {α : Type} (k : Key) : lookupA (α := α) k [] = none := rfl

theorem lookupA_cons {α : Type} (k : Key) (p : Key × α) (l : List (Key × α)) :
    lookupA k (p :: l) = if p.1 = k then some p.2 else lookupA k l := rfl

theorem lookupA_mem {α : Type} {k : Key} {v : α} {l : List (Key × α)}
    (h : lookupA k l = some v) : (k, v) ∈ l := by
  induction l with
  | nil => simp [lookupA] at h
  | cons p rest ih =>
    rw [lookupA_cons] at h
    by_cases hpk : p.1 = k
    · rw [if_pos hpk] at h
      obtain ⟨a, b⟩ := p
      obtain rfl : a = k := hpk
      obtain rfl : b = v := by injection h
      exact List.mem_cons_self _ _
    · rw [if_neg hpk] at h
      exact List.mem_cons_of_mem _ (ih h)

theorem lookupA_eq_none_iff {α : Type} {k : Key} {l : List (Key × α)} :
    lookupA k l = none ↔ k ∉ l.map Prod.fst := by
  induction l with
  | nil => simp [lookupA]
  | cons p rest ih =>
    rw [lookupA_cons]
    by_cases hpk : p.1 = k
    · simp [hpk]
    · simp [hpk, ih, Ne.symm hpk]

theorem lookupA_removeA {α : Type} (k k' : Key) (l : List (Key × α)) :
    lookupA k' (removeA k l) = if k' = k then none else lookupA k' l := by
  induction l with
  | nil => simp [removeA, lookupA]
  | cons p rest ih =>
    by_cases hpk : p.1 = k
    · rw [show removeA k (p :: rest) = removeA k rest by
        simp [removeA, List.filter_cons, hpk]]
      rw [ih, lookupA_cons]
      by_cases hk' : k' = k
      · simp [hk']
      · have : p.1 ≠ k' := by rw [hpk]; exact fun h => hk' h.symm
        simp [hk', this]
    · rw [show removeA k (p :: rest) = p :: removeA k rest by
        simp [removeA, List.filter_cons, hpk]]
      rw [lookupA_cons, lookupA_cons, ih]
      by_cases hpk' : p.1 = k'
      · have : ¬ k' = k := fun h => hpk (hpk'.trans h)
        simp [hpk', this]
      · simp [hpk']

theorem lookupA_insertA {α : Type} (k k' : Key) (v : α) (l : List (Key × α)) :
    lookupA k' (insertA k v l) = if k' = k then some v else lookupA k' l := by
  rw [insertA, lookupA_cons, lookupA_removeA]
  by_cases h : k' = k
  · simp [h]
  · have h2 : ¬ k = k' := fun hh => h hh.symm
    simp [h, h2]

theorem removeA_eq_self {α : Type} {k : Key} {l : List (Key × α)}
    (h : lookupA k l = none) : removeA k l = l := by
  rw [lookupA_eq_none_iff] at h
  refine List.filter_eq_self.mpr ?_
  intro p hp
  simp only [ne_eq, decide_eq_true_eq]
  intro hpk
  exact h (List.mem_map.mpr ⟨p, hp, hpk⟩)

theorem mem_removeA {α : Type} {p : Key × α} {k : Key} {l : List (Key × α)}
    (h : p ∈ removeA k l) : p ∈ l ∧ p.1 ≠ k := by
  have := List.mem_filter.mp h
  simpa using this

theorem removeAll_nil_keys {α : Type} (l : List (Key × α)) : removeAll [] l = l := rfl

theorem removeAll_cons_keys {α : Type} (k : Key) (ks : List Key) (l : List (Key × α)) :
    removeAll (k :: ks) l = removeAll ks (removeA k l) := rfl

theorem lookupA_removeAll {α : Type} (ks : List Key) (k : Key) (l : List (Key × α)) :
    lookupA k (removeAll ks l) = if k ∈ ks then none else lookupA k l := by
  induction ks generalizing l with
  | nil => simp [removeAll]
  | cons k0 ks ih =>
    rw [removeAll_cons_keys, ih, lookupA_removeA]
    by_cases h0 : k = k0
    · simp [h0]
    · by_cases hks : k ∈ ks
      · simp [hks]
      · simp [h0, hks]

theorem mem_removeAll {α : Type} {p : Key × α} {ks : List Key} {l : List (Key × α)}
    (h : p ∈ removeAll ks l) : p ∈ l ∧ p.1 ∉ ks := by
  induction ks generalizing l with
  | nil => simpa [removeAll] using h
  | cons k0 ks ih =>
    rw [removeAll_cons_keys] at h
    obtain ⟨h1, h2⟩ := ih h
    obtain ⟨h3, h4⟩ := mem_removeA h1
    exact ⟨h3, by simp [h2, h4]⟩

/-! ### Branch lemmas for the dispatcher -/

theorem tickCounter_vals (c : Cache) : (tickCounter c).1.vals = c.vals := by
  unfold tickCounter; split <;> rfl

theorem tickCounter_entries (c : Cache) : (tickCounter c).1.entries = c.entries := by
  unfold tickCounter; split <;> rfl

theorem tickCounter_save_flag (c : Cache) : (tickCounter c).1.save_flag = c.save_flag := by
  unfold tickCounter; split <;> rfl

theorem tickCounter_ops (c : Cache) :
    (tickCounter c).1.ops_since_invalidation =
      if c.invalidation_threshold ≤ c.ops_since_invalidation then 0
      else c.ops_since_invalidation + 1 := by
  unfold tickCounter; split <;> simp_all

theorem tickCounter_snd (c : Cache) :
    (tickCounter c).2 = decide (c.invalidation_threshold ≤ c.ops_since_invalidation) := by
  unfold tickCounter; split <;> simp_all

theorem handle_in_empty_key (c : Cache) (input : List Nat) (now : Int)
    (hcmd : input.getD 0 0 = 73 ∨ input.getD 0 0 = 71)
    (hzero : zeroKey ((input.drop 1).take 63) = true) :
    handle_in c input now = ⟨(tickCounter c).1, [69, NEWLINE], (tickCounter c).2⟩ := by
  unfold handle_in
  rcases hcmd with h | h <;>
  · rw [h]
    simp only []
    rw [hzero]
    simp

theorem handle_in_G (c : Cache) (input : List Nat) (now : Int)
    (hcmd : input.getD 0 0 = 71)
    (hzero : zeroKey ((input.drop 1).take 63) = false) :
    handle_in c input now =
      (match lookupA ((input.drop 1).take 63) c.vals with
        | some out => ⟨(tickCounter c).1, out ++ [NEWLINE], (tickCounter c).2⟩
        | none => ⟨(tickCounter c).1, [71, NEWLINE], (tickCounter c).2⟩) := by
  unfold handle_in
  rw [hcmd]
  simp only []
  rw [hzero]
  simp [tickCounter_vals]

theorem handle_in_R (c : Cache) (input : List Nat) (now : Int)
    (hcmd : input.getD 0 0 = 82) :
    handle_in c input now =
      ⟨{ (tickCounter c).1 with
          entries := removeA ((input.drop 1).take 63) c.entries
          vals := removeA ((input.drop 1).take 63) c.vals
          save_flag := true }, [82, NEWLINE], (tickCounter c).2⟩ := by
  unfold handle_in
  rw [hcmd]
  simp [tickCounter_vals, tickCounter_entries]

theorem handle_in_I (c : Cache) (input : List Nat) (now : Int)
    (hcmd : input.getD 0 0 = 73)
    (hzero : zeroKey ((input.drop 1).take 63) = false) :
    handle_in c input now =
      ⟨{ (tickCounter c).1 with
          entries := insertA ((input.drop 1).take 63)
            ⟨((input.drop 64).take 64).take 56, now,
              if 0 < decode_offset ((input.drop 64).take 64) then
                some (now + (decode_offset ((input.drop 64).take 64) : Int))
              else none⟩ c.entries
          vals := insertA ((input.drop 1).take 63) ((input.drop 64).take 64) c.vals
          save_flag := true }, [73, NEWLINE], (tickCounter c).2⟩ := by
  unfold handle_in
  rw [hcmd]
  simp only []
  rw [hzero]
  simp [tickCounter_vals, tickCounter_entries]

theorem handle_in_H (c : Cache) (input : List Nat) (now : Int)
    (hcmd : input.getD 0 0 = 72) :
    handle_in c input now =
      ⟨{ (tickCounter c).1 with save_flag := false }, [], (tickCounter c).2⟩ := by
  unfold handle_in
  rw [hcmd]
  simp

theorem handle_in_other (c : Cache) (input : List Nat) (now : Int)
    (hcmd : input.getD 0 0 ∉ ([71, 72, 73, 82] : List Nat)) :
    handle_in c input now = ⟨(tickCounter c).1, [], (tickCounter c).2⟩ := by
  unfold handle_in
  simp only [List.mem_cons, List.mem_singleton, not_or] at hcmd
  obtain ⟨h71, h72, h73, h82⟩ := hcmd
  set command := input.getD 0 0 with hc
  simp [h71, h72, h73, h82.1]

/-! ### Sweep lemmas -/

theorem lookupA_of_mem_nodup {α : Type} {k : Key} {v : α} {l : List (Key × α)}
    (hnd : (l.map Prod.fst).Nodup) (hm : (k, v) ∈ l) : lookupA k l = some v := by
  induction l with
  | nil => simp at hm
  | cons p rest ih =>
    rw [List.map_cons, List.nodup_cons] at hnd
    rw [lookupA_cons]
    rcases List.mem_cons.mp hm with h | h
    · rw [← h]
      simp
    · by_cases hpk : p.1 = k
      · exfalso
        apply hnd.1
        rw [hpk]
        exact List.mem_map.mpr ⟨(k, v), h, rfl⟩
      · rw [if_neg hpk]
        exact ih hnd.2 h

theorem invalidate_cache_entries (c : Cache) (now : Int) :
    (invalidate_cache c now).entries = removeAll (keys_to_remove c now) c.entries := rfl

theorem invalidate_cache_vals (c : Cache) (now : Int) :
    (invalidate_cache c now).vals = removeAll (keys_to_remove c now) c.vals := rfl

theorem invalidate_cache_save_flag (c : Cache) (now : Int) :
    (invalidate_cache c now).save_flag = c.save_flag := rfl

theorem mem_keys_to_remove {c : Cache} {now : Int} {k : Key}
    (h : k ∈ keys_to_remove c now) :
    ∃ e, (k, e) ∈ c.entries ∧ expiredAt e now = true := by
  obtain ⟨p, hp, hfst⟩ := List.mem_map.mp h
  obtain ⟨hmem, hexp⟩ := List.mem_filter.mp hp
  exact ⟨p.2, by rw [← hfst]; exact ⟨hmem, hexp⟩⟩

theorem keys_to_remove_of_expired {c : Cache} {now : Int} {k : Key} {e : CacheEntry}
    (hm : (k, e) ∈ c.entries) (hexp : expiredAt e now = true) :
    k ∈ keys_to_remove c now :=
  List.mem_map.mpr ⟨(k, e), List.mem_filter.mpr ⟨hm, hexp⟩, rfl⟩

theorem invalidate_cache_of_no_keys {c : Cache} {now : Int}
    (h : keys_to_remove c now = []) : invalidate_cache c now = c := by
  unfold invalidate_cache
  rw [h]
  rfl

/-! ### Invariant preservation lemmas -/

theorem mapsInv_empty : MapsInv [] [] :=
  ⟨fun _ => rfl, fun k v _ hv _ => by simp [lookupA] at hv⟩

theorem mapsInv_insert {vs : List (Key × RawValue)} {es : List (Key × CacheEntry)}
    {k : Key} {v : RawValue} {e : CacheEntry} (h : MapsInv vs es)
    (hval : e.value = v.take 56)
    (hexp : e.expires_at =
      (if 0 < decode_offset v then some (e.created_at + (decode_offset v : Int))
       else none)) :
    MapsInv (insertA k v vs) (insertA k e es) := by
  constructor
  · intro k'
    rw [lookupA_insertA, lookupA_insertA]
    by_cases hk : k' = k
    · simp [hk]
    · simp only [if_neg hk]
      exact h.1 k'
  · intro k' v' e' hv' he'
    rw [lookupA_insertA] at hv' he'
    by_cases hk : k' = k
    · rw [if_pos hk] at hv' he'
      obtain rfl : v = v' := by injection hv'
      obtain rfl : e = e' := by injection he'
      exact ⟨hval, hexp⟩
    · rw [if_neg hk] at hv' he'
      exact h.2 k' v' e' hv' he'

theorem mapsInv_remove {vs : List (Key × RawValue)} {es : List (Key × CacheEntry)}
    {k : Key} (h : MapsInv vs es) : MapsInv (removeA k vs) (removeA k es) := by
  constructor
  · intro k'
    rw [lookupA_removeA, lookupA_removeA]
    by_cases hk : k' = k
    · simp [hk]
    · simp only [if_neg hk]
      exact h.1 k'
  · intro k' v' e' hv' he'
    rw [lookupA_removeA] at hv' he'
    by_cases hk : k' = k
    · rw [if_pos hk] at hv'
      exact absurd hv' (by simp)
    · rw [if_neg hk] at hv' he'
      exact h.2 k' v' e' hv' he'

theorem mapsInv_removeAll {vs : List (Key × RawValue)} {es : List (Key × CacheEntry)}
    {ks : List Key} (h : MapsInv vs es) : MapsInv (removeAll ks vs) (removeAll ks es) := by
  constructor
  · intro k'
    rw [lookupA_removeAll, lookupA_removeAll]
    by_cases hk : k' ∈ ks
    · simp [hk]
    · simp only [if_neg hk]
      exact h.1 k'
  · intro k' v' e' hv' he'
    rw [lookupA_removeAll] at hv' he'
    by_cases hk : k' ∈ ks
    · rw [if_pos hk] at hv'
      exact absurd hv' (by simp)
    · rw [if_neg hk] at hv' he'
      exact h.2 k' v' e' hv' he'

/-! ### Persistence lemmas -/

theorem chunksExact_of_short {n : Nat} {l : List Nat} (h : n = 0 ∨ l.length < n) :
    chunksExact n l = [] := by
  unfold chunksExact
  rw [dif_pos h]

theorem chunksExact_of_long {n : Nat} {l : List Nat} (h1 : n ≠ 0) (h2 : n ≤ l.length) :
    chunksExact n l = l.take n :: chunksExact n (l.drop n) := by
  conv_lhs => rw [chunksExact]
  rw [dif_neg (by simp [h1, Nat.not_lt.mpr h2])]

theorem take_append_of_length {l1 l2 : List Nat} {n : Nat} (h : l1.length = n) :
    (l1 ++ l2).take n = l1 := by
  rw [← h, List.take_left]

theorem drop_append_of_length {l1 l2 : List Nat} {n : Nat} (h : l1.length = n) :
    (l1 ++ l2).drop n = l2 := by
  rw [← h, List.drop_left]

theorem chunksExact_flatten {n : Nat} (hn : 0 < n) (L : List (List Nat))
    (h : ∀ x ∈ L, x.length = n) : chunksExact n L.flatten = L := by
  induction L with
  | nil =>
    exact chunksExact_of_short (Or.inr (by simpa using hn))
  | cons x L ih =>
    have hx : x.length = n := h x (List.mem_cons_self x L)
    rw [List.flatten_cons,
      chunksExact_of_long (Nat.pos_iff_ne_zero.mp hn)
        (by rw [List.length_append, hx]; exact Nat.le_add_right n _),
      take_append_of_length hx, drop_append_of_length hx,
      ih (fun y hy => h y (List.mem_cons_of_mem x hy))]

theorem loadRecord_append {k : Key} {v : RawValue} {now : Int}
    (hk : k.length = 63) (hz : zeroKey k = false) (hexp : expiredRaw v now = false) :
    loadRecord now (k ++ v) = some (k, v, entryOf now v) := by
  unfold loadRecord
  simp only []
  rw [take_append_of_length hk, drop_append_of_length hk, hz]
  simp only [Bool.false_eq_true, if_false]
  unfold entryOf expiredRaw at *
  by_cases hoff : 0 < decode_offset v
  · simp only [hoff, if_pos] at *
    simp only [decide_eq_false_iff_not, Bool.false_eq_true] at hexp
    simp [hexp]
  · simp [hoff]

theorem loadFold_nil (now : Int) (acc : List (Key × RawValue) × List (Key × CacheEntry)) :
    loadFold now [] acc = acc := rfl

theorem loadFold_cons (now : Int) (chunk : List Nat) (recs : List (List Nat))
    (acc : List (Key × RawValue) × List (Key × CacheEntry)) :
    loadFold now (chunk :: recs) acc =
      loadFold now recs
        (match loadRecord now chunk with
          | none => acc
          | some (k, v, e) => (insertA k v acc.1, insertA k e acc.2)) := rfl

theorem loadFold_of_good {now : Int} (ps : List (Key × RawValue))
    (a : List (Key × RawValue)) (b : List (Key × CacheEntry))
    (hgood : ∀ p ∈ ps, loadRecord now (p.1 ++ p.2) = some (p.1, p.2, entryOf now p.2))
    (hnd : (ps.map Prod.fst).Nodup)
    (hdisja : ∀ p ∈ ps, p.1 ∉ a.map Prod.fst)
    (hdisjb : ∀ p ∈ ps, p.1 ∉ b.map Prod.fst) :
    loadFold now (ps.map (fun p => p.1 ++ p.2)) (a, b) =
      (ps.reverse ++ a, (ps.map (fun p => (p.1, entryOf now p.2))).reverse ++ b) := by
  induction ps generalizing a b with
  | nil => simp [loadFold_nil]
  | cons p ps ih =>
    rw [List.map_cons, List.nodup_cons] at hnd
    rw [List.map_cons, loadFold_cons, hgood p (List.mem_cons_self p ps)]
    have hra : insertA p.1 p.2 a = (p.1, p.2) :: a := by
      rw [insertA, removeA_eq_self (lookupA_eq_none_iff.mpr
        (hdisja p (List.mem_cons_self p ps)))]
    have hrb : insertA p.1 (entryOf now p.2) b = (p.1, entryOf now p.2) :: b := by
      rw [insertA, removeA_eq_self (lookupA_eq_none_iff.mpr
        (hdisjb p (List.mem_cons_self p ps)))]
    simp only [hra, hrb]
    rw [ih ((p.1, p.2) :: a) ((p.1, entryOf now p.2) :: b)
      (fun q hq => hgood q (List.mem_cons_of_mem p hq)) hnd.2
      (fun q hq => by
        rw [List.map_cons, List.mem_cons]
        push_neg
        exact ⟨fun hfst => hnd.1 (hfst ▸ List.mem_map.mpr ⟨q, hq, rfl⟩),
          hdisja q (List.mem_cons_of_mem p hq)⟩)
      (fun q hq => by
        rw [List.map_cons, List.mem_cons]
        push_neg
        exact ⟨fun hfst => hnd.1 (hfst ▸ List.mem_map.mpr ⟨q, hq, rfl⟩),
          hdisjb q (List.mem_cons_of_mem p hq)⟩)]
    simp [List.reverse_cons, List.append_assoc]

theorem load_vals (bytes : List Nat) (now : Int) (c : Cache) :
    (load bytes now c).vals = (loadFold now (chunksExact 127 bytes) ([], [])).1 := rfl

/-! ### Claim C1 -/

/-- C1, counterexample to the claim as stated: with `key1 ↦ rawv0` in the
store, a `G` frame for `key1` does not emit the 56-byte payload portion of
the stored value followed by a newline — it emits the full 64-byte stored
value followed by a newline. -/
theorem kvopt_C1_counterexample :
    (handle_in cacheK1 (frameOf 71 key1 zeros64) 1050).output ≠
      rawv0.take 56 ++ [NEWLINE] := by
  decide

/-- C1 (amended): for every `G` frame whose 63-byte key is not all-zero,
the dispatcher emits the full 64-byte stored raw value followed by a
newline when the key is present, and `G` followed by a newline when it is
absent. -/
theorem kvopt_C1_amended (c : Cache) (input : List Nat) (now : Int)
    (hcmd : input.getD 0 0 = 71)
    (hzero : zeroKey ((input.drop 1).take 63) = false) :
    (handle_in c input now).output =
      (match lookupA ((input.drop 1).take 63) c.vals with
        | some v => v ++ [NEWLINE]
        | none => [71, NEWLINE]) := by
  rw [handle_in_G c input now hcmd hzero]
  cases lookupA ((input.drop 1).take 63) c.vals <;> rfl

/-- C1, witness: concrete hit and miss. -/
theorem kvopt_C1_witness :
    (handle_in cacheK1 (frameOf 71 key1 zeros64) 1050).output = rawv0 ++ [NEWLINE] ∧
    (handle_in Cache.new (frameOf 71 key1 zeros64) 1050).output = [71, NEWLINE] :=
  ⟨(kvopt_C1_amended cacheK1 (frameOf 71 key1 zeros64) 1050 (by decide)
      (by decide)).trans (by decide),
   (kvopt_C1_amended Cache.new (frameOf 71 key1 zeros64) 1050 (by decide)
      (by decide)).trans (by decide)⟩

/-! ### Claim C3 -/

/-- C3, counterexample to the claim as stated: two insert frames that agree
everywhere except the 6-byte creation-timestamp field (offsets 120..126)
produce different stored states, so that field is not without effect on
the stored state. -/
theorem kvopt_C3_counterexample :
    (frameOf 73 key1 rawv0).take 120 = (frameOf 73 key1 rawv1).take 120 ∧
    (frameOf 73 key1 rawv0).drop 126 = (frameOf 73 key1 rawv1).drop 126 ∧
    (handle_in Cache.new (frameOf 73 key1 rawv0) 1000).cache ≠
      (handle_in Cache.new (frameOf 73 key1 rawv1) 1000).cache := by
  refine ⟨by decide, by decide, by decide⟩

/-- C3 (amended): for every `I` frame with a non-zero key, the entry map
records `created_at = now` and an expiry computed from the offset field of
the caller, independent of the timestamp field of the caller; but the
raw-value map stores the 64 caller value bytes verbatim, timestamp field
included, so
that field does affect the stored state. -/
theorem kvopt_C3_amended (c : Cache) (input : List Nat) (now : Int)
    (hcmd : input.getD 0 0 = 73)
    (hzero : zeroKey ((input.drop 1).take 63) = false) :
    lookupA ((input.drop 1).take 63) (handle_in c input now).cache.entries =
      some ⟨((input.drop 64).take 64).take 56, now,
        if 0 < decode_offset ((input.drop 64).take 64) then
          some (now + (decode_offset ((input.drop 64).take 64) : Int))
        else none⟩ ∧
    lookupA ((input.drop 1).take 63) (handle_in c input now).cache.vals =
      some ((input.drop 64).take 64) := by
  rw [handle_in_I c input now hcmd hzero]
  exact ⟨(lookupA_insertA _ _ _ c.entries).trans (if_pos rfl),
    (lookupA_insertA _ _ _ c.vals).trans (if_pos rfl)⟩

/-- C3, witness: concrete insert at time 1000 with zero timestamp field and
offset 100. -/
theorem kvopt_C3_witness :
    lookupA key1 (handle_in Cache.new (frameOf 73 key1 rawv0) 1000).cache.entries =
      some ⟨payload2, 1000, some 1100⟩ ∧
    lookupA key1 (handle_in Cache.new (frameOf 73 key1 rawv0) 1000).cache.vals =
      some rawv0 := by
  have h := kvopt_C3_amended Cache.new (frameOf 73 key1 rawv0) 1000
    (by decide) (by decide)
  exact ⟨h.1.trans (by decide), h.2.trans (by decide)⟩

/-! ### Claim C4 -/

/-- C4: for a frame whose 63-byte key is all zeros, a `G` or `I` frame
emits `E` + newline and leaves both maps unchanged, while `R` and `H`
frames behave exactly as they do for any other key content (`R` removes
the key from both maps, acknowledges, and sets the dirty flag; `H` leaves
both maps unchanged and emits nothing) — the `R`/`H` conjuncts hold with
no all-zero hypothesis at all. -/
theorem kvopt_C4 (c : Cache) (input : List Nat) (now : Int) :
    (zeroKey ((input.drop 1).take 63) = true →
      (input.getD 0 0 = 71 ∨ input.getD 0 0 = 73) →
        (handle_in c input now).output = [69, NEWLINE] ∧
        (handle_in c input now).cache.vals = c.vals ∧
        (handle_in c input now).cache.entries = c.entries) ∧
    (input.getD 0 0 = 82 →
        (handle_in c input now).output = [82, NEWLINE] ∧
        (handle_in c input now).cache.vals = removeA ((input.drop 1).take 63) c.vals ∧
        (handle_in c input now).cache.entries =
          removeA ((input.drop 1).take 63) c.entries ∧
        (handle_in c input now).cache.save_flag = true) ∧
    (input.getD 0 0 = 72 →
        (handle_in c input now).output = [] ∧
        (handle_in c input now).cache.vals = c.vals ∧
        (handle_in c input now).cache.entries = c.entries) := by
  refine ⟨fun hz hcmd => ?_, fun hcmd => ?_, fun hcmd => ?_⟩
  · rw [handle_in_empty_key c input now hcmd.symm hz]
    exact ⟨rfl, tickCounter_vals c, tickCounter_entries c⟩
  · rw [handle_in_R c input now hcmd]
    exact ⟨rfl, rfl, rfl, rfl⟩
  · rw [handle_in_H c input now hcmd]
    exact ⟨rfl, tickCounter_vals c, tickCounter_entries c⟩

/-- C4, witness: all-zero-key get on a populated store, and all-zero-key
remove. -/
theorem kvopt_C4_witness :
    ((handle_in cacheK1 (frameOf 71 key0 zeros64) 0).output = [69, NEWLINE] ∧
      (handle_in cacheK1 (frameOf 71 key0 zeros64) 0).cache.vals = cacheK1.vals ∧
      (handle_in cacheK1 (frameOf 71 key0 zeros64) 0).cache.entries = cacheK1.entries) ∧
    (handle_in cacheK1 (frameOf 82 key0 zeros64) 0).output = [82, NEWLINE] :=
  ⟨(kvopt_C4 cacheK1 (frameOf 71 key0 zeros64) 0).1 (by decide) (Or.inl (by decide)),
   ((kvopt_C4 cacheK1 (frameOf 82 key0 zeros64) 0).2.1 (by decide)).1⟩

/-! ### Claim C8 -/

/-- C8: removing an absent key is not an error — an `R` frame for a key
present in neither map leaves both maps unchanged, still emits `R` +
newline, and still sets the dirty flag. -/
theorem kvopt_C8 (c : Cache) (input : List Nat) (now : Int)
    (hcmd : input.getD 0 0 = 82)
    (hv : lookupA ((input.drop 1).take 63) c.vals = none)
    (he : lookupA ((input.drop 1).take 63) c.entries = none) :
    (handle_in c input now).cache.vals = c.vals ∧
    (handle_in c input now).cache.entries = c.entries ∧
    (handle_in c input now).output = [82, NEWLINE] ∧
    (handle_in c input now).cache.save_flag = true := by
  rw [handle_in_R c input now hcmd]
  exact ⟨removeA_eq_self hv, removeA_eq_self he, rfl, rfl⟩

/-- C8, witness: remove of `key1` from the empty store. -/
theorem kvopt_C8_witness :
    (handle_in Cache.new (frameOf 82 key1 zeros64) 0).cache.vals = Cache.new.vals ∧
    (handle_in Cache.new (frameOf 82 key1 zeros64) 0).cache.entries = Cache.new.entries ∧
    (handle_in Cache.new (frameOf 82 key1 zeros64) 0).output = [82, NEWLINE] ∧
    (handle_in Cache.new (frameOf 82 key1 zeros64) 0).cache.save_flag = true :=
  kvopt_C8 Cache.new (frameOf 82 key1 zeros64) 0 (by decide) (by decide) (by decide)

/-! ### Claim C9 -/

/-- C9, counterexample to the claim as stated: a non-mutating `G` frame
(on a store where the key is even absent) increments the operation
counter, so it is not the case that exactly the mutating calls increment
it. -/
theorem kvopt_C9_counterexample :
    (handle_in Cache.new (frameOf 71 key1 zeros64) 0).cache.ops_since_invalidation ≠
      Cache.new.ops_since_invalidation := by
  decide

/-- C9 (amended): every `handle_in` call increments the operation counter,
regardless of opcode and of whether the frame mutates the store; a sweep
is scheduled on the call whose pre-increment counter has reached the
threshold, and the counter then resets to zero; the default threshold is
100. -/
theorem kvopt_C9_amended (c : Cache) (input : List Nat) (now : Int) :
    (handle_in c input now).cache.ops_since_invalidation =
      (if c.invalidation_threshold ≤ c.ops_since_invalidation then 0
       else c.ops_since_invalidation + 1) ∧
    (handle_in c input now).sweep_scheduled =
      decide (c.invalidation_threshold ≤ c.ops_since_invalidation) ∧
    Cache.new.invalidation_threshold = DEFAULT_INVALIDATION_THRESHOLD ∧
    DEFAULT_INVALIDATION_THRESHOLD = 100 := by
  have main : (handle_in c input now).cache.ops_since_invalidation =
      (tickCounter c).1.ops_since_invalidation ∧
      (handle_in c input now).sweep_scheduled = (tickCounter c).2 := by
    by_cases h71 : input.getD 0 0 = 71
    · by_cases hz : zeroKey ((input.drop 1).take 63) = true
      · rw [handle_in_empty_key c input now (Or.inr h71) hz]
        exact ⟨rfl, rfl⟩
      · rw [handle_in_G c input now h71 (by simpa using hz)]
        cases lookupA ((input.drop 1).take 63) c.vals <;> exact ⟨rfl, rfl⟩
    · by_cases h72 : input.getD 0 0 = 72
      · rw [handle_in_H c input now h72]
        exact ⟨rfl, rfl⟩
      · by_cases h73 : input.getD 0 0 = 73
        · by_cases hz : zeroKey ((input.drop 1).take 63) = true
          · rw [handle_in_empty_key c input now (Or.inl h73) hz]
            exact ⟨rfl, rfl⟩
          · rw [handle_in_I c input now h73 (by simpa using hz)]
            exact ⟨rfl, rfl⟩
        · by_cases h82 : input.getD 0 0 = 82
          · rw [handle_in_R c input now h82]
            exact ⟨rfl, rfl⟩
          · rw [handle_in_other c input now (by
              intro hmem
              simp only [List.mem_cons] at hmem
              rcases hmem with hx | hx | hx | hx | hx
              exacts [h71 hx, h72 hx, h73 hx, h82 hx, absurd hx (List.not_mem_nil _)])]
            exact ⟨rfl, rfl⟩
  exact ⟨main.1.trans (tickCounter_ops c), main.2.trans (tickCounter_snd c), rfl, rfl⟩

/-! ### Claim C10 -/

/-- C10: on the save path with file creation, write and flush succeeding,
a short write (fewer bytes consumed than the length of the record buffer)
counts as a successful save: the dirty flag is cleared even though only a
strict prefix of the buffer reached the file. -/
theorem kvopt_C10 (c : Cache) (now : Int) (n : Nat)
    (hshort : n < (saveBuffer c now).length) :
    ∃ r, clean_up c now true n = some r ∧
      r.cache.save_flag = false ∧
      r.file = (saveBuffer c now).take n ∧
      r.file.length < (saveBuffer c now).length := by
  refine ⟨_, rfl, rfl, rfl, ?_⟩
  rw [List.length_take]
  exact min_lt_iff.mpr (Or.inl hshort)

/-- C10, witness: a save over a one-record store where the write consumes
0 of the 127 buffered bytes still clears the dirty flag. -/
theorem kvopt_C10_witness :
    ∃ r, clean_up cacheK1 0 true 0 = some r ∧
      r.cache.save_flag = false ∧
      r.file = (saveBuffer cacheK1 0).take 0 ∧
      r.file.length < (saveBuffer cacheK1 0).length :=
  kvopt_C10 cacheK1 0 0 (by decide)

/-! ### Claim C2 -/

/-- C2, counterexample to the claim as stated: after an insert at time 1000
whose frame carries a zeroed timestamp field, the entry map `created_at`
is 1000 while the metadata decoded from the stored raw value has creation
timestamp 0 — the entry metadata does not equal the metadata decoded from
the stored raw value. -/
theorem kvopt_C2_counterexample :
    ((lookupA key1
        (handle_in Cache.new (frameOf 73 key1 rawv0) 1000).cache.entries).map
      CacheEntry.created_at) ≠
    ((lookupA key1
        (handle_in Cache.new (frameOf 73 key1 rawv0) 1000).cache.vals).map
      decode_timestamp) := by
  decide

/-- C2 (amended): the presence-alignment half of the store invariant holds
and is preserved: after any dispatched frame and after any sweep, a key is
in the raw-value map iff it is in the entry map, the entry payload is
the first 56 bytes of the raw value, and the entry expiry is
`created_at + offset` for the raw offset field (or absent when that offset
is zero); the entry `created_at`, however, is not tied to the raw
timestamp field. -/
theorem kvopt_C2_amended (c : Cache) (input : List Nat) (now : Int)
    (h : StoreInv c) :
    StoreInv (handle_in c input now).cache ∧ StoreInv (invalidate_cache c now) := by
  constructor
  · by_cases h71 : input.getD 0 0 = 71
    · by_cases hz : zeroKey ((input.drop 1).take 63) = true
      · rw [handle_in_empty_key c input now (Or.inr h71) hz]
        exact (by simpa [StoreInv, tickCounter_vals, tickCounter_entries] using h)
      · rw [handle_in_G c input now h71 (by simpa using hz)]
        cases lookupA ((input.drop 1).take 63) c.vals <;>
          exact (by simpa [StoreInv, tickCounter_vals, tickCounter_entries] using h)
    · by_cases h72 : input.getD 0 0 = 72
      · rw [handle_in_H c input now h72]
        exact (by simpa [StoreInv, tickCounter_vals, tickCounter_entries] using h)
      · by_cases h73 : input.getD 0 0 = 73
        · by_cases hz : zeroKey ((input.drop 1).take 63) = true
          · rw [handle_in_empty_key c input now (Or.inl h73) hz]
            exact (by simpa [StoreInv, tickCounter_vals, tickCounter_entries] using h)
          · rw [handle_in_I c input now h73 (by simpa using hz)]
            exact mapsInv_insert h rfl rfl
        · by_cases h82 : input.getD 0 0 = 82
          · rw [handle_in_R c input now h82]
            exact mapsInv_remove h
          · rw [handle_in_other c input now (by
              intro hmem
              simp only [List.mem_cons] at hmem
              rcases hmem with hx | hx | hx | hx | hx
              exacts [h71 hx, h72 hx, h73 hx, h82 hx, absurd hx (List.not_mem_nil _)])]
            exact (by simpa [StoreInv, tickCounter_vals, tickCounter_entries] using h)
  · exact mapsInv_removeAll h

/-- C2, witness: the invariant holds on the empty store and is carried
through a concrete insert. -/
theorem kvopt_C2_witness :
    StoreInv (handle_in Cache.new (frameOf 73 key1 rawv0) 1000).cache :=
  (kvopt_C2_amended Cache.new (frameOf 73 key1 rawv0) 1000 mapsInv_empty).1

/-! ### Claim C6 -/

/-- C6: the sweep is idempotent — for every store state and fixed time
`now`, a second sweep right after a first one collects no keys and leaves
the store exactly as the first sweep left it. -/
theorem kvopt_C6 (c : Cache) (now : Int) :
    keys_to_remove (invalidate_cache c now) now = [] ∧
    invalidate_cache (invalidate_cache c now) now = invalidate_cache c now := by
  have h1 : keys_to_remove (invalidate_cache c now) now = [] := by
    unfold keys_to_remove
    rw [List.map_eq_nil_iff, List.filter_eq_nil_iff]
    intro p hp
    rw [invalidate_cache_entries] at hp
    obtain ⟨hmem, hnot⟩ := mem_removeAll hp
    intro hexp
    exact hnot (keys_to_remove_of_expired hmem hexp)
  exact ⟨h1, invalidate_cache_of_no_keys h1⟩

/-! ### Claim C5 -/

/-- C5: a sweep at time `now` removes from both maps exactly the keys whose
entry carries an expiry (`expires_at` set, i.e. nonzero offset at
insertion) that is at or before `now`; and an entry stored by an insert
whose frame carries offset 0 has no expiry and survives every sweep at
every later time. -/
theorem kvopt_C5 (c : Cache) (now : Int)
    (hnd : (c.entries.map Prod.fst).Nodup) :
    (∀ k e, lookupA k c.entries = some e →
      lookupA k (invalidate_cache c now).entries =
        (if expiredAt e now then none else some e) ∧
      lookupA k (invalidate_cache c now).vals =
        (if expiredAt e now then none else lookupA k c.vals)) ∧
    (∀ input now0 now1,
      input.getD 0 0 = 73 →
      zeroKey ((input.drop 1).take 63) = false →
      decode_offset ((input.drop 64).take 64) = 0 →
      lookupA ((input.drop 1).take 63)
          (invalidate_cache (handle_in c input now0).cache now1).entries =
        some ⟨((input.drop 64).take 64).take 56, now0, none⟩) := by
  constructor
  · intro k e he
    rw [invalidate_cache_entries, invalidate_cache_vals,
      lookupA_removeAll, lookupA_removeAll]
    by_cases hexp : expiredAt e now = true
    · have hk : k ∈ keys_to_remove c now :=
        keys_to_remove_of_expired (lookupA_mem he) hexp
      rw [if_pos hk, if_pos hk, if_pos hexp, if_pos hexp]
      exact ⟨rfl, rfl⟩
    · have hk : k ∉ keys_to_remove c now := by
        intro hk
        obtain ⟨e', he', hexp'⟩ := mem_keys_to_remove hk
        have : e' = e := by
          have := lookupA_of_mem_nodup hnd he'
          rw [this] at he
          injection he
        exact hexp (this ▸ hexp')
      rw [if_neg hk, if_neg hk, if_neg (by simpa using hexp),
        if_neg (by simpa using hexp)]
      exact ⟨he, rfl⟩
  · intro input now0 now1 hcmd hzero hoff
    rw [handle_in_I c input now0 hcmd hzero]
    set key := (input.drop 1).take 63 with hkeq
    set v := (input.drop 64).take 64 with hveq
    have hent : (⟨v.take 56, now0,
        if 0 < decode_offset v then some (now0 + (decode_offset v : Int))
        else none⟩ : CacheEntry) = ⟨v.take 56, now0, none⟩ := by
      rw [hoff]
      simp
    rw [hent]
    set c1 := { (tickCounter c).1 with
        entries := insertA key (⟨v.take 56, now0, none⟩ : CacheEntry) c.entries
        vals := insertA key v c.vals
        save_flag := true } with hc1
    have hlook : lookupA key c1.entries = some ⟨v.take 56, now0, none⟩ := by
      rw [hc1]
      exact (lookupA_insertA _ _ _ c.entries).trans (if_pos rfl)
    have hnotk : key ∉ keys_to_remove c1 now1 := by
      intro hk
      obtain ⟨e', he', hexp'⟩ := mem_keys_to_remove hk
      have he'2 : (key, e') ∈ insertA key (⟨v.take 56, now0, none⟩ : CacheEntry) c.entries := he'
      rw [insertA] at he'2
      rcases List.mem_cons.mp he'2 with h | h
      · have : e' = ⟨v.take 56, now0, none⟩ := by injection h
        rw [this] at hexp'
        simp [expiredAt] at hexp'
      · exact (mem_removeA h).2 rfl
    rw [invalidate_cache_entries, lookupA_removeAll, if_neg hnotk]
    exact hlook

/-- C5, witness: on `cacheK1` (expiry 1100), the sweep at time 1100 removes
the entry from both maps, and a concrete offset-0 insert survives a much
later sweep. -/
theorem kvopt_C5_witness :
    lookupA key1 (invalidate_cache cacheK1 1100).entries = none ∧
    lookupA key1
        (invalidate_cache
          (handle_in Cache.new (frameOf 73 key1 (payload2 ++ ts0 ++ [0, 0])) 1000).cache
          999999).entries =
      some ⟨payload2, 1000, none⟩ := by
  have h := kvopt_C5 cacheK1 1100 (by decide)
  refine ⟨((h.1 key1 ⟨payload2, 1000, some 1100⟩ (by decide)).1).trans (by decide), ?_⟩
  have h2 := h.2 (frameOf 73 key1 (payload2 ++ ts0 ++ [0, 0])) 1000 999999
    (by decide) (by decide) (by decide)
  exact h2.trans (by decide)

/-! ### Claim C7 -/

/-- C7: persistence round-trip — against a store whose keys are 63-byte
non-zero keys with 64-byte values (all reachable stores), saving at time
`now` and loading the resulting bytes at the same time reproduces exactly
the pairs of the store that were not yet expired at `now`, modulo
ordering. -/
theorem kvopt_C7 (c : Cache) (now : Int)
    (hlen : ∀ p ∈ c.vals, p.1.length = 63 ∧ zeroKey p.1 = false ∧ p.2.length = 64)
    (hnd : (c.vals.map Prod.fst).Nodup) :
    ∀ k v, (k, v) ∈ (load (saveBuffer c now) now c).vals ↔
      ((k, v) ∈ c.vals ∧ expiredRaw v now = false) := by
  intro k v
  set S := c.vals.filter (fun p => !zeroKey p.1 && !expiredRaw p.2 now) with hS
  have hSsub : ∀ p ∈ S, p ∈ c.vals := fun p hp => (List.mem_filter.mp hp).1
  have hSlen : ∀ x ∈ S.map (fun p => p.1 ++ p.2), x.length = 127 := by
    intro x hx
    obtain ⟨p, hp, rfl⟩ := List.mem_map.mp hx
    obtain ⟨h63, _, h64⟩ := hlen p (hSsub p hp)
    rw [List.length_append, h63, h64]
  have hbuf : saveBuffer c now = (S.map (fun p => p.1 ++ p.2)).flatten := rfl
  have hchunks : chunksExact 127 (saveBuffer c now) = S.map (fun p => p.1 ++ p.2) := by
    rw [hbuf]
    exact chunksExact_flatten (by norm_num) _ hSlen
  have hgood : ∀ p ∈ S, loadRecord now (p.1 ++ p.2) = some (p.1, p.2, entryOf now p.2) := by
    intro p hp
    obtain ⟨hmem, hpred⟩ := List.mem_filter.mp hp
    obtain ⟨h63, hz, _⟩ := hlen p hmem
    simp only [Bool.and_eq_true, Bool.not_eq_true'] at hpred
    exact loadRecord_append h63 hz hpred.2
  have hndS : (S.map Prod.fst).Nodup := by
    refine List.Nodup.sublist (List.Sublist.map Prod.fst ?_) hnd
    rw [hS]
    exact List.filter_sublist c.vals
  have hfold := loadFold_of_good S [] []
    hgood hndS (by simp) (by simp)
  rw [load_vals, hchunks, hfold]
  simp only [List.append_nil, List.mem_reverse]
  rw [hS, List.mem_filter]
  constructor
  · rintro ⟨hmem, hpred⟩
    simp only [Bool.and_eq_true, Bool.not_eq_true'] at hpred
    exact ⟨hmem, hpred.2⟩
  · rintro ⟨hmem, hexp⟩
    obtain ⟨_, hz, _⟩ := hlen (k, v) hmem
    refine ⟨hmem, ?_⟩
    simp only [Bool.and_eq_true, Bool.not_eq_true']
    exact ⟨hz, hexp⟩

/-- C7, witness: the single non-expired record of `cacheK1` at time 0
survives the save/load round-trip. -/
theorem kvopt_C7_witness :
    (key1, rawv0) ∈ (load (saveBuffer cacheK1 0) 0 cacheK1).vals :=
  (kvopt_C7 cacheK1 0 (by decide) (by decide) key1 rawv0).mpr ⟨by decide, by decide⟩

end KVOpt
